import Mathlib

/-!
Verification development for the sudoku solver in solution.py.

Shallow embedding conventions:
* A cell ("box") is its row-major index: box "A1" is 0, "A2" is 1, ..., "I9" is 80.
  The source builds box names with cross applied to the row letters and column digits;
  here cross builds the corresponding indices.
* A candidate string such as "123456789" is a list of characters (Candidates).
* The values dictionary is a list of candidate lists indexed by box (Grid); the
  source dictionary has the 81 boxes as keys in exactly this row-major insertion order.
* The global ASSIGNMENTS list is threaded explicitly: SState pairs the values
  dictionary with the current assignments log, and every function that the source
  lets mutate ASSIGNMENTS returns the extended log.
* Python iterates some sets (PEERS entries, the naked-twins set) in unspecified
  order; the embedding fixes the deterministic orders given below.  No theorem in
  this file depends on those orders for the properties claimed.
* The while loop of reduce_puzzle and the recursion of search are embedded with an
  explicit fuel argument; the fuel actually supplied (total candidate count plus one)
  is proved sufficient below, so the fueled functions compute the same results as
  the unbounded Python loops.
-/

open scoped List

abbrev Candidates := List Char

abbrev Grid := List Candidates

/-- State carried through the solver: the values dictionary plus the
ASSIGNMENTS log of full-grid snapshots. -/
structure SState where
  values : Grid
  assignments : List Grid
deriving DecidableEq

/-- The digit characters "123456789". -/
def digits : List Char := "123456789".toList

/-- Source: cross(row_names, col_names); row+col concatenation becomes the
row-major index 9*r+c. -/
def cross (row_names col_names : List Nat) : List Nat :=
  row_names.flatMap (fun r => col_names.map (fun c => 9 * r + c))

/-- Source: ROWS = "ABCDEFGHI", as row indices 0..8. -/
def ROWS : List Nat := List.range 9

/-- Source: COLS = "123456789", as column indices 0..8. -/
def COLS : List Nat := List.range 9

/-- Source: BOXES = cross(ROWS, COLS). -/
def BOXES : List Nat := cross ROWS COLS

/-- Source: ROW_UNITS. -/
def ROW_UNITS : List (List Nat) := ROWS.map (fun r => cross [r] COLS)

/-- Source: COL_UNITS. -/
def COL_UNITS : List (List Nat) := COLS.map (fun c => cross ROWS [c])

/-- Source: BOX_UNITS, rows grouped "ABC","DEF","GHI" and columns "123","456","789". -/
def BOX_UNITS : List (List Nat) :=
  [[0, 1, 2], [3, 4, 5], [6, 7, 8]].flatMap
    (fun rs => [[0, 1, 2], [3, 4, 5], [6, 7, 8]].map (fun cs => cross rs cs))

/-- Source: DIAG_UNIT = zip of "ABCDEFGHI" with "123456789". -/
def DIAG_UNIT : List Nat := (List.range 9).map (fun i => 9 * i + i)

/-- Source: ANTI_DIAG_UNIT = zip of "ABCDEFGHI" with "987654321". -/
def ANTI_DIAG_UNIT : List Nat := (List.range 9).map (fun i => 9 * i + (8 - i))

/-- Source: UNIT_LIST = ROW_UNITS + COL_UNITS + BOX_UNITS.  Note the diagonal
units are not included. -/
def UNIT_LIST : List (List Nat) := ROW_UNITS ++ COL_UNITS ++ BOX_UNITS

/-- Source: UNITS[box], the units containing a box. -/
def UNITS (box : Nat) : List (List Nat) := UNIT_LIST.filter (fun u => decide (box ∈ u))

/-- Source: PEERS[box], a Python set; embedded in increasing box order. -/
def PEERS (box : Nat) : List Nat :=
  BOXES.filter (fun b2 => decide (b2 ≠ box ∧ b2 ∈ (UNITS box).flatten))

/-- Source: assign_value(values, box, value).  If the value is unchanged nothing
happens; otherwise the box is updated and, when the new value has length one,
a snapshot of the updated dictionary is appended to ASSIGNMENTS. -/
def assign_value (s : SState) (box : Nat) (value : Candidates) : SState :=
  if s.values.getD box [] = value then s
  else
    let v := s.values.set box value
    if value.length = 1 then ⟨v, s.assignments ++ [v]⟩ else ⟨v, s.assignments⟩

/-- Python str.replace(sub, "") for the occurring cases: sub is always the current
value of a box captured while of length 1, which can only have shrunk to length
0 by the time it is reused; replace of the empty string is the identity. -/
def replaceDel (t sub : Candidates) : Candidates :=
  match sub with
  | [c] => t.filter (fun d => decide (d ≠ c))
  | _ => t

/-- Source: eliminate(values).  single_values is captured once; each peer update
re-reads the current dictionary exactly as the Python code does. -/
def eliminate (s : SState) : SState :=
  let single_values := BOXES.filter (fun box => decide ((s.values.getD box []).length = 1))
  single_values.foldl
    (fun t box =>
      (PEERS box).foldl
        (fun t peer =>
          assign_value t peer (replaceDel (t.values.getD peer []) (t.values.getD box []))) t)
    s

/-- Source: only_choice(values). -/
def only_choice (s : SState) : SState :=
  UNIT_LIST.foldl
    (fun t unit =>
      digits.foldl
        (fun t digit =>
          match unit.filter (fun box => decide (digit ∈ t.values.getD box [])) with
          | [b] => assign_value t b [digit]
          | _ => t) t)
    s

/-- The naked twin values of a unit: the candidate lists of length exactly 2 that
occur on exactly two of the unit's boxes (the source's all_naked_twins set,
embedded as a deduplicated list). -/
def ntPairs (g : Grid) (unit : List Nat) : List Candidates :=
  let auv := unit.map (fun box => g.getD box [])
  (auv.filter (fun v => decide (v.length = 2 ∧ auv.count v = 2))).dedup

/-- Processing of one unit inside naked_twins: all_unit_values is snapshotted at
unit entry, digits_to_remove is the concatenation of all twin values, and every
box whose current value is not one of the twin values has each of those digits
removed through assign_value. -/
def ntUnit (s : SState) (unit : List Nat) : SState :=
  let ants := ntPairs s.values unit
  let digits_to_remove := ants.flatten
  unit.foldl
    (fun t box =>
      if t.values.getD box [] ∈ ants then t
      else
        digits_to_remove.foldl
          (fun t digit =>
            assign_value t box ((t.values.getD box []).filter (fun d => decide (d ≠ digit)))) t)
    s

/-- Source: naked_twins(values), a pass over every unit of UNIT_LIST. -/
def naked_twins (s : SState) : SState := UNIT_LIST.foldl ntUnit s

/-- Source: grid_values(grid).  zip truncates to the shorter of the 81 boxes and
the input, exactly as Python's zip does. -/
def grid_values (grid : List Char) : Grid :=
  (BOXES.zip grid).map (fun p => if p.2 = '.' then digits else [p.2])

/-- One round of the reduce_puzzle loop body: eliminate, then only_choice, then
naked_twins. -/
def pass1 (s : SState) : SState := naked_twins (only_choice (eliminate s))

/-- Python's any(len(values[box]) == 0 for box in BOXES). -/
def hasEmpty (g : Grid) : Bool := BOXES.any (fun b => decide ((g.getD b []).length = 0))

/-- Python's all(len(value) == 1 for value in values.values()). -/
def allSingle (g : Grid) : Bool := g.all (fun l => decide (l.length = 1))

/-- Total number of candidates over all boxes; the termination measure of the
reduce_puzzle loop. -/
def sumLen (g : Grid) : Nat := (g.map List.length).sum

/-- The reduce_puzzle while loop with explicit fuel.  Each iteration runs one full
round, then returns failure if any box became empty, returns the dictionary if
the round changed nothing, and otherwise loops. -/
def reduceGo : Nat → SState → Option Grid × List Grid
  | 0, s => (none, s.assignments)
  | f + 1, s =>
    let t := pass1 s
    if hasEmpty t.values = true then (none, t.assignments)
    else if t.values = s.values then (some t.values, t.assignments)
    else reduceGo f t

/-- Source: reduce_puzzle(values); False becomes none.  The fuel sumLen+1 is
sufficient (theorem reduceGo_fuel below), since every changing round strictly
decreases sumLen. -/
def reduce_puzzle (s : SState) : Option Grid × List Grid :=
  reduceGo (sumLen s.values + 1) s

/-- Return values of search: a dictionary, Python False (returned on a reduced
contradiction), or Python None (returned by falling off the choice loop). -/
inductive SResult where
  | solved : Grid → SResult
  | retFalse : SResult
  | retNone : SResult
deriving DecidableEq

/-- Source: min(values.items(), key=lambda t: len(t[1]) if len(t[1]) > 1 else 10).
Python's min keeps the first item attaining the minimum in dictionary order. -/
def bestKey (g : Grid) : Nat :=
  (List.range g.length).foldl
    (fun b i =>
      if (if (g.getD i []).length > 1 then (g.getD i []).length else 10) <
          (if (g.getD b []).length > 1 then (g.getD b []).length else 10) then i else b)
    0

/-- The for-choice-in-best_choices loop of search.  The chosen digit is written
directly into the copied dictionary (not through assign_value), the recursive
result is kept when it is a truthy dictionary whose boxes are all single, and
falling off the end of the loop returns Python None. -/
def searchLoop (rec : SState → SResult × List Grid) (b : Nat) (v : Grid) :
    List Char → List Grid → SResult × List Grid
  | [], log => (SResult.retNone, log)
  | c :: cs, log =>
    match rec ⟨v.set b [c], log⟩ with
    | (SResult.solved r, log2) =>
      if r ≠ [] ∧ allSingle r = true then (SResult.solved r, log2)
      else searchLoop rec b v cs log2
    | (SResult.retFalse, log2) => searchLoop rec b v cs log2
    | (SResult.retNone, log2) => searchLoop rec b v cs log2

/-- The body of search: a falsy reduce_puzzle result (False, or an empty
dictionary) returns False; an all-single dictionary is returned as solved;
otherwise the box with the fewest (more than one) candidates is branched on. -/
def searchStep (rec : SState → SResult × List Grid) (s : SState) : SResult × List Grid :=
  match reduce_puzzle s with
  | (none, log) => (SResult.retFalse, log)
  | (some v, log) =>
    if v = [] then (SResult.retFalse, log)
    else if allSingle v = true then (SResult.solved v, log)
    else searchLoop rec (bestKey v) v (v.getD (bestKey v) []) log

/-- Source: search(values), with explicit fuel for the recursion. -/
def searchGo : Nat → SState → SResult × List Grid
  | 0, s => (SResult.retNone, s.assignments)
  | f + 1, s => searchStep (searchGo f) s

/-- Source: search(values).  The fuel sumLen+1 bounds the recursion depth since
every recursive call strictly decreases sumLen. -/
def search (s : SState) : SResult × List Grid := searchGo (sumLen s.values + 1) s

/-- Source: solve(grid): parse then search, starting from an empty ASSIGNMENTS log. -/
def solve (grid : List Char) : SResult × List Grid := search ⟨grid_values grid, []⟩

/-- The values component of one full round, started from an empty log; by
log-irrelevance (pass1_values below) this is the grid evolution of any round. -/
def passValues (g : Grid) : Grid := (pass1 ⟨g, []⟩).values

/-! ### The pointwise sublist order on grids -/

/-- Pointwise sublist order: the same number of boxes, and every box's candidate
list a sublist of what it was. -/
def PLe (g h : Grid) : Prop := List.Forall₂ List.Sublist g h

/-- Every step of a fold only ever shrinks the values dictionary pointwise. -/
def StepShrink {α : Type} (F : SState → α → SState) : Prop :=
  ∀ (s : SState) (x : α), PLe (F s x).values s.values

/-- The values produced by a step do not depend on the assignments log. -/
def ValIndep {α : Type} (F : SState → α → SState) : Prop :=
  ∀ (g : Grid) (l1 l2 : List Grid) (x : α), (F ⟨g, l1⟩ x).values = (F ⟨g, l2⟩ x).values

def ntDigitStep (box : Nat) (t : SState) (digit : Char) : SState :=
  assign_value t box ((t.values.getD box []).filter (fun d => decide (d ≠ digit)))

def ntBoxStep (ants : List Candidates) (dtr : List Char) (t : SState) (box : Nat) : SState :=
  if t.values.getD box [] ∈ ants then t
  else dtr.foldl (ntDigitStep box) t

/-- The body of eliminate for one captured single-valued box. -/
def elimStep (t : SState) (box : Nat) : SState :=
  (PEERS box).foldl
    (fun t peer =>
      assign_value t peer (replaceDel (t.values.getD peer []) (t.values.getD box []))) t

/-- The body of only_choice for one unit. -/
def ocStep (t : SState) (unit : List Nat) : SState :=
  digits.foldl
    (fun t digit =>
      match unit.filter (fun box => decide (digit ∈ t.values.getD box [])) with
      | [b] => assign_value t b [digit]
      | _ => t) t

/-! ### Concrete grids used by the counterexamples and witnesses -/

/-- A fully solved standard sudoku, given as an 81-character grid string. -/
def fullSolStr : List Char :=
  "483921657967345821251876493548132976729564138136798245372689514814253769695417382".toList

/-- A candidate dictionary with every box holding "12": a round fixpoint with no
empty box, not all single, on which every branch of search fails. -/
def twelveGrid : Grid := List.replicate 81 ['1', '2']

/-- A candidate dictionary whose first box is already empty. -/
def emptyCellGrid : Grid := (List.replicate 81 digits).set 0 []

/-- Row A holds the twin value "12" on boxes A1 and A4 and the twin value "13"
on boxes A7 and A8; all other boxes are fresh. -/
def g3 : Grid :=
  (((((List.replicate 81 digits).set 0 ['1', '2']).set 3 ['1', '2']).set 6
      ['1', '3']).set 7 ['1', '3'])

/-- The candidate list "3456789". -/
def sev : Candidates := ['3', '4', '5', '6', '7', '8', '9']

/-- A round fixpoint with an unavoidable pair: boxes A1, A2, B1, B2 hold "12"
and every other box holds "3456789".  Propagation cannot decide the pair, and
both search branches run into a contradiction, so search falls off its loop. -/
def pairGrid : Grid :=
  ((((List.replicate 81 sev).set 0 ['1', '2']).set 1 ['1', '2']).set 9
      ['1', '2']).set 10 ['1', '2']

/-- State of the first branch, forcing A1 to '1', after its first round. -/
def pg1 : Grid :=
  ((((List.replicate 81 sev).set 0 ['1']).set 1 ['2']).set 9 ['2']).set 10 ['2']

/-- State of the first branch after its second round: boxes B1, B2 are empty. -/
def pg2 : Grid := (pg1.set 9 []).set 10 []

/-- The three snapshots the first branch appends while eliminating from A1. -/
def snap1 : Grid := (pairGrid.set 0 ['1']).set 1 ['2']

def snap2 : Grid := ((pairGrid.set 0 ['1']).set 1 ['2']).set 9 ['2']

def snap3 : Grid := pg1

def snapLog1 : List Grid := [snap1, snap2, snap3]

/-- State of the second branch, forcing A1 to '2', after its first round. -/
def pq1 : Grid :=
  ((((List.replicate 81 sev).set 0 ['2']).set 1 ['1']).set 9 ['1']).set 10 ['1']

/-- State of the second branch after its second round: boxes B1, B2 are empty. -/
def pq2 : Grid := (pq1.set 9 []).set 10 []

/-- The three snapshots the second branch appends while eliminating from A1. -/
def tsnap1 : Grid := (pairGrid.set 0 ['2']).set 1 ['1']

def tsnap2 : Grid := ((pairGrid.set 0 ['2']).set 1 ['1']).set 9 ['1']

def tsnap3 : Grid := pq1

def snapLog2 : List Grid := [tsnap1, tsnap2, tsnap3]

theorem PLe.rfl (g : Grid) : PLe g g :=
  List.forall₂_same.2 (fun x _ => List.Sublist.refl x)

theorem PLe.trans {f g h : Grid} (h1 : PLe f g) (h2 : PLe g h) : PLe f h := by
  induction h2 generalizing f with
  | nil => exact h1
  | @cons b c l2 l3 hbc hrest ih =>
    cases h1 with
    | cons hab h1r => exact List.Forall₂.cons (hab.trans hbc) (ih h1r)

theorem PLe.length_eq {g h : Grid} (h1 : PLe g h) : g.length = h.length :=
  List.Forall₂.length_eq h1

theorem PLe.getD {g h : Grid} (h1 : PLe g h) (i : Nat) : g.getD i [] <+ h.getD i [] := by
  induction h1 generalizing i with
  | nil => simp
  | @cons a b l1 l2 hab _ ih =>
    cases i with
    | zero => simpa using hab
    | succ n => simpa using ih n

theorem PLe.antisymm {g h : Grid} (h1 : PLe g h) (h2 : PLe h g) : g = h := by
  induction h1 with
  | nil => rfl
  | @cons a b l1 l2 hab _ ih =>
    cases h2 with
    | cons hba h2r =>
      rw [hab.eq_of_length (Nat.le_antisymm hab.length_le hba.length_le), ih h2r]

theorem PLe.set {g : Grid} {b : Nat} {v : Candidates} (hv : v <+ g.getD b []) :
    PLe (g.set b v) g := by
  induction g generalizing b with
  | nil => exact List.Forall₂.nil
  | cons a l ih =>
    cases b with
    | zero => exact List.Forall₂.cons (by simpa using hv) (PLe.rfl l)
    | succ n => exact List.Forall₂.cons (List.Sublist.refl a) (ih (by simpa using hv))

theorem sumLen_le {g h : Grid} (h1 : PLe g h) : sumLen g ≤ sumLen h := by
  induction h1 with
  | nil => exact Nat.le.refl
  | @cons a b l1 l2 hab _ ih =>
    simpa [sumLen] using Nat.add_le_add hab.length_le ih

theorem sumLen_lt {g h : Grid} (h1 : PLe g h) (hne : g ≠ h) : sumLen g < sumLen h := by
  induction h1 with
  | nil => exact absurd rfl hne
  | @cons a b l1 l2 hab hr ih =>
    by_cases hab' : a = b
    · subst hab'
      have hne' : l1 ≠ l2 := fun he => hne (by rw [he])
      simpa [sumLen] using Nat.add_lt_add_left (ih hne') a.length
    · have hlen : a.length < b.length :=
        Nat.lt_of_le_of_ne hab.length_le (fun he => hab' (hab.eq_of_length he))
      simpa [sumLen] using Nat.add_lt_add_of_lt_of_le hlen (sumLen_le hr)

/-! ### assign_value -/

theorem assign_values (s : SState) (box : Nat) (value : Candidates) :
    (assign_value s box value).values =
      if s.values.getD box [] = value then s.values else s.values.set box value := by
  unfold assign_value
  split
  · rfl
  · split <;> rfl

theorem assign_log (s : SState) (box : Nat) (value : Candidates) :
    (assign_value s box value).assignments =
      if s.values.getD box [] = value then s.assignments
      else if value.length = 1 then s.assignments ++ [s.values.set box value]
      else s.assignments := by
  unfold assign_value
  split
  · simp_all
  · split <;> simp_all

theorem assign_shrink {s : SState} {box : Nat} {value : Candidates}
    (hv : value <+ s.values.getD box []) : PLe (assign_value s box value).values s.values := by
  rw [assign_values]
  split
  · exact PLe.rfl _
  · exact PLe.set hv

theorem replaceDel_sublist (t sub : Candidates) : replaceDel t sub <+ t := by
  unfold replaceDel
  split
  · exact List.filter_sublist _
  · exact List.Sublist.refl _

/-! ### Generic fold combinators -/

theorem foldl_shrink {α : Type} {F : SState → α → SState} (hF : StepShrink F)
    (l : List α) : ∀ s : SState, PLe (List.foldl F s l).values s.values := by
  induction l with
  | nil => exact fun s => PLe.rfl _
  | cons x xs ih =>
    intro s
    simp only [List.foldl_cons]
    exact (ih (F s x)).trans (hF s x)

theorem foldl_valindep {α : Type} {F : SState → α → SState} (hF : ValIndep F)
    (l : List α) : ∀ (g : Grid) (l1 l2 : List Grid),
      (List.foldl F ⟨g, l1⟩ l).values = (List.foldl F ⟨g, l2⟩ l).values := by
  induction l with
  | nil => intro g l1 l2; rfl
  | cons x xs ih =>
    intro g l1 l2
    simp only [List.foldl_cons]
    have h1 : List.foldl F (F ⟨g, l1⟩ x) xs =
        List.foldl F ⟨(F ⟨g, l1⟩ x).values, (F ⟨g, l1⟩ x).assignments⟩ xs := rfl
    have h2 : List.foldl F (F ⟨g, l2⟩ x) xs =
        List.foldl F ⟨(F ⟨g, l2⟩ x).values, (F ⟨g, l2⟩ x).assignments⟩ xs := rfl
    rw [h1, h2, ← hF g l1 l2 x]
    exact ih _ _ _

theorem foldl_fix {α : Type} {F : SState → α → SState} (hS : StepShrink F) (hI : ValIndep F)
    (l : List α) : ∀ s : SState, (List.foldl F s l).values = s.values →
      ∀ x ∈ l, ∀ lg : List Grid, (F ⟨s.values, lg⟩ x).values = s.values := by
  induction l with
  | nil => intro s _ x hx; exact absurd hx (List.not_mem_nil x)
  | cons y ys ih =>
    intro s hfix x hx lg
    simp only [List.foldl_cons] at hfix
    have h1 : PLe (List.foldl F (F s y) ys).values (F s y).values := foldl_shrink hS ys _
    have h2 : PLe (F s y).values s.values := hS s y
    have hFy : (F s y).values = s.values := PLe.antisymm h2 (hfix ▸ h1)
    rcases List.mem_cons.1 hx with hxy | hxys
    · subst hxy
      have := hI s.values lg s.assignments x
      rw [this]
      have : (⟨s.values, s.assignments⟩ : SState) = s := rfl
      rw [this]
      exact hFy
    · have hfix2 : (List.foldl F (F s y) ys).values = (F s y).values := by rw [hFy, hfix]
      have := ih (F s y) hfix2 x hxys lg
      rw [hFy] at this
      exact this

/-! ### Shrinking: no rule ever grows a candidate list -/

theorem elim_inner_shrink (box : Nat) :
    StepShrink (fun t peer =>
      assign_value t peer (replaceDel (t.values.getD peer []) (t.values.getD box []))) :=
  fun _ _ => assign_shrink (replaceDel_sublist _ _)

theorem elim_outer_shrink :
    StepShrink (fun t box =>
      (PEERS box).foldl
        (fun t peer =>
          assign_value t peer (replaceDel (t.values.getD peer []) (t.values.getD box []))) t) :=
  fun s box => foldl_shrink (elim_inner_shrink box) _ s

theorem eliminate_shrink (s : SState) : PLe (eliminate s).values s.values := by
  unfold eliminate
  exact foldl_shrink elim_outer_shrink _ s

theorem oc_inner_shrink (unit : List Nat) :
    StepShrink (fun t digit =>
      match unit.filter (fun box => decide (digit ∈ t.values.getD box [])) with
      | [b] => assign_value t b [digit]
      | _ => t) := by
  intro s digit
  rcases hf : unit.filter (fun box => decide (digit ∈ s.values.getD box [])) with _ | ⟨b, _ | ⟨c, cs⟩⟩
  · simp only [hf]
    exact PLe.rfl _
  · simp only [hf]
    apply assign_shrink
    rw [List.singleton_sublist]
    have hb : b ∈ unit.filter (fun box => decide (digit ∈ s.values.getD box [])) := by
      rw [hf]; exact List.mem_cons_self b _
    exact of_decide_eq_true (List.mem_filter.1 hb).2
  · simp only [hf]
    exact PLe.rfl _

theorem oc_outer_shrink :
    StepShrink (fun t (unit : List Nat) =>
      digits.foldl
        (fun t digit =>
          match unit.filter (fun box => decide (digit ∈ t.values.getD box [])) with
          | [b] => assign_value t b [digit]
          | _ => t) t) :=
  fun s unit => foldl_shrink (oc_inner_shrink unit) _ s

theorem only_choice_shrink (s : SState) : PLe (only_choice s).values s.values := by
  unfold only_choice
  exact foldl_shrink oc_outer_shrink _ s

theorem nt_box_shrink (ants : List Candidates) (digits_to_remove : List Char) :
    StepShrink (fun t box =>
      if t.values.getD box [] ∈ ants then t
      else
        digits_to_remove.foldl
          (fun t digit =>
            assign_value t box ((t.values.getD box []).filter (fun d => decide (d ≠ digit)))) t) := by
  intro s box
  dsimp only
  split
  · exact PLe.rfl _
  · exact foldl_shrink (fun t _ => assign_shrink (List.filter_sublist _)) _ s

theorem ntUnit_shrink : StepShrink ntUnit := by
  intro s unit
  unfold ntUnit
  exact foldl_shrink (nt_box_shrink (ntPairs s.values unit) (ntPairs s.values unit).flatten) _ s

theorem naked_twins_shrink (s : SState) : PLe (naked_twins s).values s.values := by
  unfold naked_twins
  exact foldl_shrink ntUnit_shrink _ s

theorem pass1_shrink (s : SState) : PLe (pass1 s).values s.values :=
  ((naked_twins_shrink _).trans (only_choice_shrink _)).trans (eliminate_shrink s)

/-! ### Log-irrelevance: the values evolution never depends on the assignments log -/

theorem elim_inner_indep (box : Nat) :
    ValIndep (fun t peer =>
      assign_value t peer (replaceDel (t.values.getD peer []) (t.values.getD box []))) := by
  intro g l1 l2 peer
  dsimp only
  rw [assign_values, assign_values]

theorem elim_outer_indep :
    ValIndep (fun t box =>
      (PEERS box).foldl
        (fun t peer =>
          assign_value t peer (replaceDel (t.values.getD peer []) (t.values.getD box []))) t) := by
  intro g l1 l2 box
  dsimp only
  exact foldl_valindep (elim_inner_indep box) _ g l1 l2

theorem eliminate_indep (g : Grid) (l1 l2 : List Grid) :
    (eliminate ⟨g, l1⟩).values = (eliminate ⟨g, l2⟩).values := by
  unfold eliminate
  dsimp only
  exact foldl_valindep elim_outer_indep _ g l1 l2

theorem oc_inner_indep (unit : List Nat) :
    ValIndep (fun t digit =>
      match unit.filter (fun box => decide (digit ∈ t.values.getD box [])) with
      | [b] => assign_value t b [digit]
      | _ => t) := by
  intro g l1 l2 digit
  dsimp only
  rcases hf : unit.filter (fun box => decide (digit ∈ g.getD box [])) with _ | ⟨b, _ | ⟨c, cs⟩⟩
  · rfl
  · rw [assign_values, assign_values]
  · rfl

theorem oc_outer_indep :
    ValIndep (fun t (unit : List Nat) =>
      digits.foldl
        (fun t digit =>
          match unit.filter (fun box => decide (digit ∈ t.values.getD box [])) with
          | [b] => assign_value t b [digit]
          | _ => t) t) := by
  intro g l1 l2 unit
  dsimp only
  exact foldl_valindep (oc_inner_indep unit) _ g l1 l2

theorem only_choice_indep (g : Grid) (l1 l2 : List Grid) :
    (only_choice ⟨g, l1⟩).values = (only_choice ⟨g, l2⟩).values := by
  unfold only_choice
  exact foldl_valindep oc_outer_indep _ g l1 l2

theorem nt_in_indep (box : Nat) :
    ValIndep (fun t digit =>
      assign_value t box ((t.values.getD box []).filter (fun d => decide (d ≠ digit)))) := by
  intro g l1 l2 digit
  dsimp only
  rw [assign_values, assign_values]

theorem nt_box_indep (ants : List Candidates) (dtr : List Char) :
    ValIndep (fun t box =>
      if t.values.getD box [] ∈ ants then t
      else
        dtr.foldl
          (fun t digit =>
            assign_value t box ((t.values.getD box []).filter (fun d => decide (d ≠ digit)))) t) := by
  intro g l1 l2 box
  dsimp only
  by_cases h : g.getD box [] ∈ ants
  · rw [if_pos h, if_pos h]
  · rw [if_neg h, if_neg h]
    exact foldl_valindep (nt_in_indep box) _ g l1 l2

theorem ntUnit_indep : ValIndep ntUnit := by
  intro g l1 l2 unit
  unfold ntUnit
  dsimp only
  exact foldl_valindep (nt_box_indep (ntPairs g unit) (ntPairs g unit).flatten) _ g l1 l2

theorem naked_twins_indep (g : Grid) (l1 l2 : List Grid) :
    (naked_twins ⟨g, l1⟩).values = (naked_twins ⟨g, l2⟩).values := by
  unfold naked_twins
  exact foldl_valindep ntUnit_indep _ g l1 l2

/-- Transport a log-irrelevance statement along equal values components. -/
theorem values_congr {op : SState → SState}
    (hop : ∀ (g : Grid) (l1 l2 : List Grid), (op ⟨g, l1⟩).values = (op ⟨g, l2⟩).values)
    {s t : SState} (hst : s.values = t.values) : (op s).values = (op t).values := by
  have h1 : (op s).values = (op ⟨s.values, s.assignments⟩).values := rfl
  have h2 : (op t).values = (op ⟨t.values, t.assignments⟩).values := rfl
  rw [h1, h2, hst]
  exact hop t.values s.assignments t.assignments

theorem pass1_indep (g : Grid) (l1 l2 : List Grid) :
    (pass1 ⟨g, l1⟩).values = (pass1 ⟨g, l2⟩).values := by
  unfold pass1
  exact values_congr naked_twins_indep (values_congr only_choice_indep (eliminate_indep g l1 l2))

theorem pass1_values (s : SState) : (pass1 s).values = passValues s.values := by
  unfold passValues
  exact values_congr pass1_indep rfl

theorem passValues_shrink (g : Grid) : PLe (passValues g) g := pass1_shrink ⟨g, []⟩

/-! ### The reduce_puzzle loop: termination and characterization -/

theorem reduceGo_succ (f : Nat) (s : SState) :
    reduceGo (f + 1) s =
      if hasEmpty (pass1 s).values = true then (none, (pass1 s).assignments)
      else if (pass1 s).values = s.values then (some (pass1 s).values, (pass1 s).assignments)
      else reduceGo f (pass1 s) := rfl

/-- Any fuel of at least sumLen+1 rounds computes the same result: the loop
exits within sumLen+1 rounds because every changing round strictly shrinks the
total candidate count. -/
theorem reduceGo_fuel (f : Nat) (s : SState) (hf : sumLen s.values + 1 ≤ f) :
    reduceGo f s = reduce_puzzle s := by
  induction f using Nat.strong_induction_on generalizing s with
  | _ f ih =>
    cases f with
    | zero => omega
    | succ f' =>
      rw [reduce_puzzle, reduceGo_succ, reduceGo_succ]
      by_cases h1 : hasEmpty (pass1 s).values = true
      · rw [if_pos h1, if_pos h1]
      · rw [if_neg h1, if_neg h1]
        by_cases h2 : (pass1 s).values = s.values
        · rw [if_pos h2, if_pos h2]
        · rw [if_neg h2, if_neg h2]
          have hlt : sumLen (pass1 s).values < sumLen s.values :=
            sumLen_lt (pass1_shrink s) h2
          have e1 : reduceGo f' (pass1 s) = reduce_puzzle (pass1 s) :=
            ih f' (by omega) _ (by omega)
          have e2 : reduceGo (sumLen s.values) (pass1 s) = reduce_puzzle (pass1 s) :=
            ih (sumLen s.values) (by omega) _ (by omega)
          rw [e1, e2]

/-- Claim C8: the reduce_puzzle while loop terminates on every candidate grid:
every changing round strictly shrinks the total candidate count, which cannot
drop below zero, so sumLen+1 rounds of fuel always suffice and any fuel of at
least that bound computes the same result as the unbounded loop. -/
theorem C8_reduce_terminates (f : Nat) (s : SState) (hf : sumLen s.values + 1 ≤ f) :
    reduceGo f s = reduce_puzzle s :=
  reduceGo_fuel f s hf

/-- One-step unfolding of reduce_puzzle. -/
theorem reduce_unfold (s : SState) :
    reduce_puzzle s =
      if hasEmpty (pass1 s).values = true then (none, (pass1 s).assignments)
      else if (pass1 s).values = s.values then (some (pass1 s).values, (pass1 s).assignments)
      else reduce_puzzle (pass1 s) := by
  rw [reduce_puzzle, reduceGo_succ]
  by_cases h1 : hasEmpty (pass1 s).values = true
  · rw [if_pos h1, if_pos h1]
  · rw [if_neg h1, if_neg h1]
    by_cases h2 : (pass1 s).values = s.values
    · rw [if_pos h2, if_pos h2]
    · rw [if_neg h2, if_neg h2]
      exact reduceGo_fuel _ _ (by
        have := sumLen_lt (pass1_shrink s) h2
        omega)

theorem reduceGo_some {f : Nat} : ∀ {s : SState} {v : Grid} {l : List Grid},
    reduceGo f s = (some v, l) →
    PLe v s.values ∧ passValues v = v ∧ hasEmpty v = false := by
  induction f with
  | zero => intro s v l h; exact absurd h (by simp [reduceGo])
  | succ f ih =>
    intro s v l h
    rw [reduceGo_succ] at h
    by_cases h1 : hasEmpty (pass1 s).values = true
    · rw [if_pos h1] at h
      exact absurd h (by simp)
    · rw [if_neg h1] at h
      by_cases h2 : (pass1 s).values = s.values
      · rw [if_pos h2] at h
        have hv : (pass1 s).values = v := (Prod.mk.injEq _ _ _ _ ▸ h).1 |> Option.some.inj
        refine ⟨?_, ?_, ?_⟩
        · rw [← hv, h2]; exact PLe.rfl _
        · rw [← hv, h2, ← pass1_values s]
          exact h2
        · rw [← hv]; exact Bool.not_eq_true _ ▸ h1
      · rw [if_neg h2] at h
        obtain ⟨hp, hfix, hne⟩ := ih h
        exact ⟨hp.trans (pass1_shrink s), hfix, hne⟩

theorem reduce_some {s : SState} {v : Grid} {l : List Grid}
    (h : reduce_puzzle s = (some v, l)) :
    PLe v s.values ∧ passValues v = v ∧ hasEmpty v = false :=
  reduceGo_some h

theorem hasEmpty_mono {g h : Grid} (hle : PLe h g) (he : hasEmpty g = true) :
    hasEmpty h = true := by
  unfold hasEmpty at he ⊢
  rw [List.any_eq_true] at he ⊢
  obtain ⟨b, hb, hbe⟩ := he
  refine ⟨b, hb, ?_⟩
  rw [decide_eq_true_iff] at hbe ⊢
  have hsub : h.getD b [] <+ g.getD b [] := hle.getD b
  rw [List.length_eq_zero] at hbe ⊢
  rw [hbe] at hsub
  exact List.sublist_nil.1 hsub

theorem passValues_fix_iterate {g : Grid} (h : passValues g = g) :
    ∀ k, passValues^[k] g = g := by
  intro k
  induction k with
  | zero => rfl
  | succ k ih => rw [Function.iterate_succ_apply, h, ih]

/-- reduce_puzzle fails exactly when iterating full rounds ever produces an empty
box (and empties persist, so this is the first exit taken). -/
theorem reduce_none_iff : ∀ (n : Nat) (s : SState), sumLen s.values ≤ n →
    ((reduce_puzzle s).1 = none ↔ ∃ k, hasEmpty (passValues^[k + 1] s.values) = true) := by
  intro n
  induction n with
  | zero =>
    intro s hs
    rw [reduce_unfold]
    by_cases h1 : hasEmpty (pass1 s).values = true
    · rw [if_pos h1]
      exact ⟨fun _ => ⟨0, by rw [Function.iterate_one, ← pass1_values s]; exact h1⟩,
        fun _ => rfl⟩
    · rw [if_neg h1]
      by_cases h2 : (pass1 s).values = s.values
      · rw [if_pos h2]
        constructor
        · intro hco; exact absurd hco (by simp)
        · rintro ⟨k, hk⟩
          have hfix : passValues s.values = s.values := by
            rw [← pass1_values s]; exact h2
          rw [passValues_fix_iterate hfix (k + 1)] at hk
          rw [← h2] at hk
          exact absurd hk h1
      · exfalso
        have := sumLen_lt (pass1_shrink s) h2
        omega
  | succ n ih =>
    intro s hs
    rw [reduce_unfold]
    by_cases h1 : hasEmpty (pass1 s).values = true
    · rw [if_pos h1]
      exact ⟨fun _ => ⟨0, by rw [Function.iterate_one, ← pass1_values s]; exact h1⟩,
        fun _ => rfl⟩
    · rw [if_neg h1]
      by_cases h2 : (pass1 s).values = s.values
      · rw [if_pos h2]
        constructor
        · intro hco; exact absurd hco (by simp)
        · rintro ⟨k, hk⟩
          have hfix : passValues s.values = s.values := by
            rw [← pass1_values s]; exact h2
          rw [passValues_fix_iterate hfix (k + 1)] at hk
          rw [← h2] at hk
          exact absurd hk h1
      · rw [if_neg h2]
        have hlt : sumLen (pass1 s).values < sumLen s.values := sumLen_lt (pass1_shrink s) h2
        have hrec := ih (pass1 s) (by omega)
        rw [hrec]
        constructor
        · rintro ⟨k, hk⟩
          refine ⟨k + 1, ?_⟩
          rw [Function.iterate_succ_apply, ← pass1_values s]
          exact hk
        · rintro ⟨k, hk⟩
          cases k with
          | zero =>
            rw [Function.iterate_one] at hk
            rw [← pass1_values s] at hk
            exact absurd hk h1
          | succ k =>
            refine ⟨k, ?_⟩
            rw [Function.iterate_succ_apply, ← pass1_values s] at hk
            exact hk

/-- Claim C7: for every candidate grid and every box, eliminate, only_choice and
naked_twins never increase that box's candidate set: the result is a sublist
(hence a subset as a set of digits, of no greater size) of the input candidates. -/
theorem C7_monotonicity (s : SState) (box : Nat) :
    ((eliminate s).values.getD box [] <+ s.values.getD box [] ∧
      ((eliminate s).values.getD box []).length ≤ (s.values.getD box []).length) ∧
    ((only_choice s).values.getD box [] <+ s.values.getD box [] ∧
      ((only_choice s).values.getD box []).length ≤ (s.values.getD box []).length) ∧
    ((naked_twins s).values.getD box [] <+ s.values.getD box [] ∧
      ((naked_twins s).values.getD box []).length ≤ (s.values.getD box []).length) :=
  ⟨⟨(eliminate_shrink s).getD box, ((eliminate_shrink s).getD box).length_le⟩,
    ⟨(only_choice_shrink s).getD box, ((only_choice_shrink s).getD box).length_le⟩,
    ⟨(naked_twins_shrink s).getD box, ((naked_twins_shrink s).getD box).length_le⟩⟩

/-- Claim C4: reduce_puzzle returns failure exactly when iterating full rounds of
eliminate, only-choice and naked-twins ever produces an empty candidate set (no
partial grid is returned in that case), and otherwise returns a grid with no
empty box that is a fixpoint of one full round. -/
theorem C4_reduce_puzzle (s : SState) :
    ((reduce_puzzle s).1 = none ↔ ∃ k, hasEmpty (passValues^[k + 1] s.values) = true) ∧
    (∀ v l, reduce_puzzle s = (some v, l) → hasEmpty v = false ∧ passValues v = v) := by
  constructor
  · exact reduce_none_iff (sumLen s.values) s Nat.le.refl
  · intro v l h
    obtain ⟨-, hfix, hne⟩ := reduce_some h
    exact ⟨hne, hfix⟩

/-! ### The search invariant -/

theorem searchGo_zero (s : SState) : searchGo 0 s = (SResult.retNone, s.assignments) := rfl

theorem searchGo_succ (f : Nat) (s : SState) :
    searchGo (f + 1) s = searchStep (searchGo f) s := rfl

theorem searchStep_none {rec : SState → SResult × List Grid} {s : SState} {log : List Grid}
    (h : reduce_puzzle s = (none, log)) :
    searchStep rec s = (SResult.retFalse, log) := by
  unfold searchStep
  rw [h]

theorem searchStep_some {rec : SState → SResult × List Grid} {s : SState} {v : Grid}
    {log : List Grid} (h : reduce_puzzle s = (some v, log)) :
    searchStep rec s =
      (if v = [] then (SResult.retFalse, log)
       else if allSingle v = true then (SResult.solved v, log)
       else searchLoop rec (bestKey v) v (v.getD (bestKey v) []) log) := by
  unfold searchStep
  rw [h]

theorem searchGo_succ_none {f : Nat} {s : SState} {log : List Grid}
    (h : reduce_puzzle s = (none, log)) :
    searchGo (f + 1) s = (SResult.retFalse, log) := by
  rw [searchGo_succ, searchStep_none h]

theorem searchGo_succ_some {f : Nat} {s : SState} {v : Grid} {log : List Grid}
    (h : reduce_puzzle s = (some v, log)) :
    searchGo (f + 1) s =
      (if v = [] then (SResult.retFalse, log)
       else if allSingle v = true then (SResult.solved v, log)
       else searchLoop (searchGo f) (bestKey v) v (v.getD (bestKey v) []) log) := by
  rw [searchGo_succ, searchStep_some h]

theorem searchLoop_nil (rec : SState → SResult × List Grid) (b : Nat) (v : Grid)
    (log : List Grid) : searchLoop rec b v [] log = (SResult.retNone, log) := rfl

theorem searchLoop_cons (rec : SState → SResult × List Grid) (b : Nat) (v : Grid)
    (c : Char) (cs : List Char) (log : List Grid) :
    searchLoop rec b v (c :: cs) log =
      match rec ⟨v.set b [c], log⟩ with
      | (SResult.solved r, log2) =>
        if r ≠ [] ∧ allSingle r = true then (SResult.solved r, log2)
        else searchLoop rec b v cs log2
      | (SResult.retFalse, log2) => searchLoop rec b v cs log2
      | (SResult.retNone, log2) => searchLoop rec b v cs log2 := rfl

theorem searchLoop_solved {rec : SState → SResult × List Grid}
    (hrec : ∀ (s : SState) (r : Grid) (log : List Grid), rec s = (SResult.solved r, log) →
      PLe r s.values ∧ r ≠ [] ∧ allSingle r = true ∧ passValues r = r)
    (b : Nat) (v : Grid) :
    ∀ (cs : List Char) (log : List Grid) (r : Grid) (log2 : List Grid),
      (∀ c ∈ cs, c ∈ v.getD b []) →
      searchLoop rec b v cs log = (SResult.solved r, log2) →
      PLe r v ∧ r ≠ [] ∧ allSingle r = true ∧ passValues r = r := by
  intro cs
  induction cs with
  | nil =>
    intro log r log2 _ h
    rw [searchLoop_nil] at h
    exact absurd h (by simp)
  | cons c cs ih =>
    intro log r log2 hmem h
    rw [searchLoop_cons] at h
    split at h
    next r' log3 heq =>
      split at h
      next hgood =>
        have hrr : r' = r ∧ log3 = log2 := by simpa using h
        obtain ⟨hrr, -⟩ := hrr
        subst hrr
        obtain ⟨hple, h1, h2, h3⟩ := hrec _ _ _ heq
        have hsub : PLe (v.set b [c]) v := by
          apply PLe.set
          rw [List.singleton_sublist]
          exact hmem c (List.mem_cons_self c cs)
        exact ⟨hple.trans hsub, h1, h2, h3⟩
      next hgood =>
        exact ih log3 r log2 (fun x hx => hmem x (List.mem_cons_of_mem c hx)) h
    next log3 heq =>
      exact ih log3 r log2 (fun x hx => hmem x (List.mem_cons_of_mem c hx)) h
    next log3 heq =>
      exact ih log3 r log2 (fun x hx => hmem x (List.mem_cons_of_mem c hx)) h

theorem searchGo_solved : ∀ (f : Nat) (s : SState) (r : Grid) (log : List Grid),
    searchGo f s = (SResult.solved r, log) →
    PLe r s.values ∧ r ≠ [] ∧ allSingle r = true ∧ passValues r = r := by
  intro f
  induction f with
  | zero =>
    intro s r log h
    rw [searchGo_zero] at h
    exact absurd h (by simp)
  | succ f ih =>
    intro s r log h
    rcases hred : reduce_puzzle s with ⟨o, rlog⟩
    cases o with
    | none => rw [searchGo_succ_none hred] at h; exact absurd h (by simp)
    | some v =>
      rw [searchGo_succ_some hred] at h
      obtain ⟨hple, hfix, hne⟩ := reduce_some hred
      by_cases hv0 : v = []
      · rw [if_pos hv0] at h
        exact absurd h (by simp)
      · rw [if_neg hv0] at h
        by_cases hall : allSingle v = true
        · rw [if_pos hall] at h
          have hv : v = r ∧ rlog = log := by simpa using h
          obtain ⟨hv, -⟩ := hv
          subst hv
          exact ⟨hple, hv0, hall, hfix⟩
        · rw [if_neg hall] at h
          obtain ⟨hp, h1, h2, h3⟩ :=
            searchLoop_solved (fun s r log hr => ih s r log hr) (bestKey v) v
              (v.getD (bestKey v) []) rlog r log (fun c hc => hc) h
          exact ⟨hp.trans hple, h1, h2, h3⟩

theorem search_solved {s : SState} {r : Grid} {log : List Grid}
    (h : search s = (SResult.solved r, log)) :
    PLe r s.values ∧ r ≠ [] ∧ allSingle r = true ∧ passValues r = r :=
  searchGo_solved _ s r log h

/-! ### Topology facts -/

theorem BOXES_eq_range : BOXES = List.range 81 := by decide

theorem units_facts : ∀ u ∈ UNIT_LIST, u.Nodup ∧ u.length = 9 ∧ ∀ b ∈ u, b < 81 := by decide

theorem mem_PEERS {b1 b2 : Nat} (hb2 : b2 < 81) (hne : b2 ≠ b1) {u : List Nat}
    (hu : u ∈ UNIT_LIST) (h1 : b1 ∈ u) (h2 : b2 ∈ u) : b2 ∈ PEERS b1 := by
  unfold PEERS
  rw [List.mem_filter]
  refine ⟨by rw [BOXES_eq_range]; exact List.mem_range.2 hb2, ?_⟩
  rw [decide_eq_true_iff]
  refine ⟨hne, ?_⟩
  rw [List.mem_flatten]
  refine ⟨u, ?_, h2⟩
  unfold UNITS
  exact List.mem_filter.2 ⟨hu, decide_eq_true h1⟩

theorem PEERS_lt {b1 b2 : Nat} (hp : b2 ∈ PEERS b1) : b2 < 81 := by
  unfold PEERS at hp
  have := (List.mem_filter.1 hp).1
  rw [BOXES_eq_range] at this
  exact List.mem_range.1 this

/-! ### getD helpers -/

theorem getD_set_self {α : Type} :
    ∀ (l : List α) (i : Nat) (v d : α), i < l.length → (l.set i v).getD i d = v := by
  intro l
  induction l with
  | nil => intro i v d h; exact absurd h (by simp)
  | cons a l ih =>
    intro i v d h
    cases i with
    | zero => rfl
    | succ n => exact ih n v d (by simpa using h)

theorem getD_mem_of_lt {α : Type} :
    ∀ (l : List α) (i : Nat) (d : α), i < l.length → l.getD i d ∈ l := by
  intro l
  induction l with
  | nil => intro i d h; exact absurd h (by simp)
  | cons a l ih =>
    intro i d h
    cases i with
    | zero => exact List.mem_cons_self a l
    | succ n => exact List.mem_cons_of_mem a (ih n d (by simpa using h))

theorem allSingle_getD {r : Grid} (hall : allSingle r = true) {i : Nat} (hi : i < r.length) :
    (r.getD i []).length = 1 := by
  unfold allSingle at hall
  rw [List.all_eq_true] at hall
  exact of_decide_eq_true (hall _ (getD_mem_of_lt r i [] hi))

/-! ### At a fixpoint of eliminate no two peers carry the same single digit -/

theorem pass_fix_elim_fix {g : Grid} (hfix : passValues g = g) :
    (eliminate ⟨g, []⟩).values = g := by
  have h1 : PLe (eliminate ⟨g, []⟩).values g := eliminate_shrink _
  have h4 : PLe (passValues g) (eliminate ⟨g, []⟩).values :=
    (naked_twins_shrink _).trans (only_choice_shrink _)
  rw [hfix] at h4
  exact PLe.antisymm h1 h4

theorem elim_fix_no_conflict {g : Grid} (hlen : g.length = 81)
    (hfix : (eliminate ⟨g, []⟩).values = g)
    {b1 b2 : Nat} {d : Char} (hb1 : b1 < 81) (hd : g.getD b1 [] = [d])
    (hp : b2 ∈ PEERS b1) : d ∉ g.getD b2 [] := by
  have hb2 : b2 < 81 := PEERS_lt hp
  have hmem : b1 ∈ BOXES.filter (fun box => decide ((g.getD box []).length = 1)) := by
    rw [List.mem_filter]
    refine ⟨by rw [BOXES_eq_range]; exact List.mem_range.2 hb1, ?_⟩
    rw [decide_eq_true_iff, hd]
    rfl
  have houter :
      ((fun t box =>
        (PEERS box).foldl
          (fun t peer =>
            assign_value t peer (replaceDel (t.values.getD peer []) (t.values.getD box []))) t)
        (⟨g, []⟩ : SState) b1).values = g :=
    foldl_fix elim_outer_shrink elim_outer_indep _ ⟨g, []⟩ hfix b1 hmem []
  have hinner :
      ((fun t peer =>
        assign_value t peer (replaceDel (t.values.getD peer []) (t.values.getD b1 [])))
        (⟨g, []⟩ : SState) b2).values = g :=
    foldl_fix (elim_inner_shrink b1) (elim_inner_indep b1) (PEERS b1) ⟨g, []⟩ houter b2 hp []
  have hrd : replaceDel (g.getD b2 []) (g.getD b1 []) =
      (g.getD b2 []).filter (fun x => decide (x ≠ d)) := by
    rw [hd]
    rfl
  rw [assign_values] at hinner
  dsimp only at hinner
  rw [hrd] at hinner
  intro hdm
  by_cases hcase : g.getD b2 [] = (g.getD b2 []).filter (fun x => decide (x ≠ d))
  · have : d ∈ (g.getD b2 []).filter (fun x => decide (x ≠ d)) := by
      rw [← hcase]; exact hdm
    have := (List.mem_filter.1 this).2
    rw [decide_eq_true_iff] at this
    exact this rfl
  · rw [if_neg hcase] at hinner
    apply hcase
    have : (g.set b2 ((g.getD b2 []).filter (fun x => decide (x ≠ d)))).getD b2 [] =
        g.getD b2 [] := by rw [hinner]
    rw [getD_set_self _ _ _ _ (by rw [hlen]; exact hb2)] at this
    exact this.symm

/-! ### A unit of 9 mutually distinct single digits is a permutation of 1..9 -/

theorem unit_flatten_props {r : Grid} :
    ∀ (u : List Nat), u.Nodup →
      (∀ b ∈ u, ∃ d, d ∈ digits ∧ r.getD b [] = [d]) →
      (∀ b1 ∈ u, ∀ b2 ∈ u, b1 ≠ b2 → ∀ d : Char, r.getD b1 [] = [d] → d ∉ r.getD b2 []) →
      ((u.map (fun b => r.getD b [])).flatten).Nodup ∧
        ((u.map (fun b => r.getD b [])).flatten).length = u.length ∧
        ∀ x ∈ (u.map (fun b => r.getD b [])).flatten, x ∈ digits := by
  intro u
  induction u with
  | nil => intro _ _ _; exact ⟨List.nodup_nil, rfl, fun x hx => absurd hx (List.not_mem_nil x)⟩
  | cons b u ih =>
    intro hnd hsingle hconf
    obtain ⟨d, hddig, hd⟩ := hsingle b (List.mem_cons_self b u)
    have hndu : u.Nodup := (List.nodup_cons.1 hnd).2
    have hbu : b ∉ u := (List.nodup_cons.1 hnd).1
    obtain ⟨ihnd, ihlen, ihsub⟩ := ih hndu
      (fun b' hb' => hsingle b' (List.mem_cons_of_mem b hb'))
      (fun b1 h1 b2 h2 hne => hconf b1 (List.mem_cons_of_mem b h1) b2
        (List.mem_cons_of_mem b h2) hne)
    have hflat : ((b :: u).map (fun b => r.getD b [])).flatten =
        r.getD b [] ++ (u.map (fun b => r.getD b [])).flatten := by
      simp
    refine ⟨?_, ?_, ?_⟩
    · rw [hflat, List.nodup_append]
      refine ⟨by rw [hd]; exact List.nodup_singleton d, ihnd, ?_⟩
      intro x hx hx2
      rw [hd] at hx
      have hxd : x = d := by simpa using hx
      rw [List.mem_flatten] at hx2
      obtain ⟨l, hl, hxl⟩ := hx2
      rw [List.mem_map] at hl
      obtain ⟨b', hb', hlb⟩ := hl
      have hne : b ≠ b' := fun he => hbu (he ▸ hb')
      have hxb : r.getD b [] = [x] := by rw [hxd]; exact hd
      have := hconf b (List.mem_cons_self b u) b' (List.mem_cons_of_mem b hb') hne x hxb
      rw [hlb] at this
      exact this hxl
    · rw [hflat, List.length_append, ihlen, hd]
      simp [Nat.add_comm]
    · rw [hflat]
      intro x hx
      rcases List.mem_append.1 hx with hx | hx
      · rw [hd] at hx
        have : x = d := by simpa using hx
        rw [this]
        exact hddig
      · exact ihsub x hx

theorem unit_join_perm {r : Grid} {u : List Nat}
    (hnd : u.Nodup) (hlen9 : u.length = 9)
    (hsingle : ∀ b ∈ u, ∃ d, d ∈ digits ∧ r.getD b [] = [d])
    (hconf : ∀ b1 ∈ u, ∀ b2 ∈ u, b1 ≠ b2 → ∀ d : Char, r.getD b1 [] = [d] → d ∉ r.getD b2 []) :
    List.Perm ((u.map (fun b => r.getD b [])).flatten) digits := by
  obtain ⟨hjnd, hjlen, hjsub⟩ := unit_flatten_props u hnd hsingle hconf
  have hsp : (u.map (fun b => r.getD b [])).flatten <+~ digits :=
    hjnd.subperm (fun x hx => hjsub x hx)
  apply hsp.perm_of_length_le
  rw [hjlen, hlen9]
  rfl

/-- Any grid that is a fixpoint of a full round, with all boxes single and all
digits among 1..9, solves every unit: each unit's digits are a permutation of
"123456789". -/
theorem fix_valid {r : Grid} (hlen : r.length = 81) (hfix : passValues r = r)
    (hall : allSingle r = true) (hdig : ∀ b, b < 81 → r.getD b [] <+ digits) :
    ∀ u ∈ UNIT_LIST, List.Perm ((u.map (fun b => r.getD b [])).flatten) digits := by
  intro u hu
  obtain ⟨hnd, hl9, hbound⟩ := units_facts u hu
  have helim := pass_fix_elim_fix hfix
  have hsingle : ∀ b ∈ u, ∃ d, d ∈ digits ∧ r.getD b [] = [d] := by
    intro b hb
    have hblt := hbound b hb
    have h1 : (r.getD b []).length = 1 := allSingle_getD hall (by rw [hlen]; exact hblt)
    have h2 : r.getD b [] <+ digits := hdig b hblt
    rcases hcd : r.getD b [] with _ | ⟨d, rest⟩
    · rw [hcd] at h1; exact absurd h1 (by simp)
    · rw [hcd] at h1
      have hrest : rest = [] := by
        have : rest.length = 0 := by simpa using h1
        exact List.length_eq_zero.1 this
      subst hrest
      refine ⟨d, ?_, rfl⟩
      rw [hcd] at h2
      exact (List.singleton_sublist).1 h2
  have hconf : ∀ b1 ∈ u, ∀ b2 ∈ u, b1 ≠ b2 →
      ∀ d : Char, r.getD b1 [] = [d] → d ∉ r.getD b2 [] := by
    intro b1 h1 b2 h2 hne d hd
    exact elim_fix_no_conflict hlen helim (hbound b1 h1) hd
      (mem_PEERS (hbound b2 h2) (fun he => hne he.symm) hu h1 h2)
  exact unit_join_perm hnd hl9 hsingle hconf

/-! ### grid_values -/

theorem zip_map_getD :
    ∀ (bs : List Nat) (g : List Char) (i : Nat), i < min bs.length g.length →
      ((bs.zip g).map (fun p => if p.2 = '.' then digits else [p.2])).getD i [] =
        if g.getD i '.' = '.' then digits else [g.getD i '.'] := by
  intro bs
  induction bs with
  | nil => intro g i h; simp at h
  | cons b bs ih =>
    intro g i h
    cases g with
    | nil => simp at h
    | cons c g =>
      cases i with
      | zero => rfl
      | succ n =>
        have : n < min bs.length g.length := by
          simp only [List.length_cons] at h
          omega
        simpa using ih g n this

theorem grid_values_length (g : List Char) : (grid_values g).length = min 81 g.length := by
  unfold grid_values
  simp [BOXES_eq_range]

theorem grid_values_getD {g : List Char} {i : Nat} (h : i < min 81 g.length) :
    (grid_values g).getD i [] = if g.getD i '.' = '.' then digits else [g.getD i '.'] := by
  unfold grid_values
  apply zip_map_getD
  have : BOXES.length = 81 := by rw [BOXES_eq_range, List.length_range]
  rw [this]
  exact h

/-- Claim C1: for every well-formed 81-character grid string (each character a
digit 1..9 or the placeholder) on which solve succeeds, every one of the 81
boxes is resolved to a single digit of 1..9, and the digits across every unit
of the topology are exactly 1..9, each occurring once. -/
theorem C1_solve_valid (g : List Char) (hlen : g.length = 81)
    (hwf : ∀ c ∈ g, c = '.' ∨ c ∈ digits) (r : Grid) (log : List Grid)
    (hsol : solve g = (SResult.solved r, log)) :
    (∀ b, b < 81 → ∃ d, d ∈ digits ∧ r.getD b [] = [d]) ∧
    (∀ u ∈ UNIT_LIST, List.Perm ((u.map (fun b => r.getD b [])).flatten) digits) := by
  obtain ⟨hple, hne0, hall, hfix⟩ := search_solved hsol
  have hmin : min 81 g.length = 81 := by omega
  have hlen81 : r.length = 81 := by
    rw [hple.length_eq]
    have : (grid_values g).length = min 81 g.length := grid_values_length g
    rw [this, hmin]
  have hdig : ∀ b, b < 81 → r.getD b [] <+ digits := by
    intro b hb
    have h1 : r.getD b [] <+ (grid_values g).getD b [] := hple.getD b
    have h2 : (grid_values g).getD b [] <+ digits := by
      rw [grid_values_getD (by rw [hmin]; exact hb)]
      split
      · exact List.Sublist.refl digits
      · next hne =>
        rw [List.singleton_sublist]
        rcases hwf (g.getD b '.') (getD_mem_of_lt g b '.' (by rw [hlen]; exact hb)) with h | h
        · exact absurd h hne
        · exact h
    exact h1.trans h2
  constructor
  · intro b hb
    have h1 : (r.getD b []).length = 1 := allSingle_getD hall (by rw [hlen81]; exact hb)
    have h2 : r.getD b [] <+ digits := hdig b hb
    rcases hcd : r.getD b [] with _ | ⟨d, rest⟩
    · rw [hcd] at h1; exact absurd h1 (by simp)
    · rw [hcd] at h1 h2
      have hrest : rest = [] := List.length_eq_zero.1 (by simpa using h1)
      subst hrest
      exact ⟨d, List.singleton_sublist.1 h2, rfl⟩
  · exact fix_valid hlen81 hfix hall hdig

/-- Claim C5: on every 81-character input on which solve succeeds, every
originally-given digit box resolves to exactly its input digit. -/
theorem C5_givens (g : List Char) (hlen : g.length = 81) (r : Grid) (log : List Grid)
    (hsol : solve g = (SResult.solved r, log)) (i : Nat) (hi : i < 81)
    (hdi : g.getD i '.' ∈ digits) : r.getD i [] = [g.getD i '.'] := by
  obtain ⟨hple, -, hall, -⟩ := search_solved hsol
  have hmin : min 81 g.length = 81 := by omega
  have hne : g.getD i '.' ≠ '.' := by
    intro h
    rw [h] at hdi
    exact absurd hdi (by decide)
  have hinit : (grid_values g).getD i [] = [g.getD i '.'] := by
    rw [grid_values_getD (by rw [hmin]; exact hi), if_neg hne]
  have hsub : r.getD i [] <+ [g.getD i '.'] := by
    have := hple.getD i
    rw [hinit] at this
    exact this
  have hlen81 : r.length = 81 := by
    rw [hple.length_eq, grid_values_length g, hmin]
  have hlen1 : (r.getD i []).length = 1 := allSingle_getD hall (by rw [hlen81]; exact hi)
  exact hsub.eq_of_length (by rw [hlen1]; rfl)

/-! ### Characterization of one naked_twins unit pass -/

theorem getD_set_ne {α : Type} :
    ∀ (l : List α) (i j : Nat) (v d : α), i ≠ j → (l.set i v).getD j d = l.getD j d := by
  intro l
  induction l with
  | nil => intro i j v d _; rfl
  | cons a l ih =>
    intro i j v d hne
    cases i with
    | zero =>
      cases j with
      | zero => exact absurd rfl hne
      | succ m => rfl
    | succ n =>
      cases j with
      | zero => rfl
      | succ m => exact ih n m v d (fun he => hne (by rw [he]))

theorem getD_of_length_le {α : Type} :
    ∀ (l : List α) (i : Nat) (d : α), l.length ≤ i → l.getD i d = d := by
  intro l
  induction l with
  | nil => intro i d _; rfl
  | cons a l ih =>
    intro i d h
    cases i with
    | zero => simp at h
    | succ n => exact ih n d (by simpa using h)

theorem assign_filter_step (t : SState) (b : Nat) (q : Char → Bool) :
    ((assign_value t b ((t.values.getD b []).filter q)).values.getD b [] =
        (t.values.getD b []).filter q) ∧
    (∀ j, j ≠ b → (assign_value t b ((t.values.getD b []).filter q)).values.getD j [] =
        t.values.getD j []) := by
  rw [assign_values]
  by_cases h : t.values.getD b [] = (t.values.getD b []).filter q
  · rw [if_pos h]
    exact ⟨h, fun j _ => rfl⟩
  · rw [if_neg h]
    by_cases hb : b < t.values.length
    · exact ⟨getD_set_self _ _ _ _ hb,
        fun j hj => getD_set_ne _ _ _ _ _ (fun he => hj he.symm)⟩
    · exfalso
      apply h
      have he : t.values.getD b [] = [] := getD_of_length_le _ _ _ (by omega)
      rw [he]
      rfl

theorem nt_inner_fold (box : Nat) :
    ∀ (dtr : List Char) (t : SState),
      ((dtr.foldl (ntDigitStep box) t).values.getD box [] =
        (t.values.getD box []).filter (fun x => decide (x ∉ dtr))) ∧
      (∀ j, j ≠ box →
        (dtr.foldl (ntDigitStep box) t).values.getD j [] = t.values.getD j []) := by
  intro dtr
  induction dtr with
  | nil =>
    intro t
    exact ⟨by simp, fun j _ => rfl⟩
  | cons d dtr ih =>
    intro t
    obtain ⟨ha, hb⟩ := assign_filter_step t box (fun x => decide (x ≠ d))
    obtain ⟨iha, ihb⟩ := ih (ntDigitStep box t d)
    constructor
    · simp only [List.foldl_cons]
      rw [iha]
      have ha' : (ntDigitStep box t d).values.getD box [] =
          (t.values.getD box []).filter (fun x => decide (x ≠ d)) := ha
      rw [ha', List.filter_filter]
      apply List.filter_congr
      intro x _
      by_cases hx1 : x = d <;> by_cases hx2 : x ∈ dtr <;> simp [hx1, hx2]
    · intro j hj
      simp only [List.foldl_cons]
      rw [ihb j hj]
      exact hb j hj

theorem ntBoxStep_getD_ne (ants : List Candidates) (dtr : List Char) (t : SState)
    (box j : Nat) (hj : j ≠ box) :
    (ntBoxStep ants dtr t box).values.getD j [] = t.values.getD j [] := by
  unfold ntBoxStep
  split
  · rfl
  · exact (nt_inner_fold box dtr t).2 j hj

theorem ntBoxStep_getD_self (ants : List Candidates) (dtr : List Char) (t : SState)
    (box : Nat) :
    (ntBoxStep ants dtr t box).values.getD box [] =
      if t.values.getD box [] ∈ ants then t.values.getD box []
      else (t.values.getD box []).filter (fun x => decide (x ∉ dtr)) := by
  unfold ntBoxStep
  split
  · rfl
  · exact (nt_inner_fold box dtr t).1

theorem ntUnit_fold_getD (ants : List Candidates) (dtr : List Char) :
    ∀ (l : List Nat) (t : SState), l.Nodup →
      (∀ j, j ∉ l → (l.foldl (ntBoxStep ants dtr) t).values.getD j [] = t.values.getD j []) ∧
      (∀ b ∈ l, (l.foldl (ntBoxStep ants dtr) t).values.getD b [] =
        if t.values.getD b [] ∈ ants then t.values.getD b []
        else (t.values.getD b []).filter (fun x => decide (x ∉ dtr))) := by
  intro l
  induction l with
  | nil =>
    intro t _
    exact ⟨fun j _ => rfl, fun b hb => absurd hb (List.not_mem_nil b)⟩
  | cons b0 l ih =>
    intro t hnd
    obtain ⟨hb0, hndl⟩ := List.nodup_cons.1 hnd
    obtain ⟨ihj, ihb⟩ := ih (ntBoxStep ants dtr t b0) hndl
    simp only [List.foldl_cons]
    constructor
    · intro j hj
      have hj0 : j ≠ b0 := fun he => hj (he ▸ List.mem_cons_self b0 l)
      have hjl : j ∉ l := fun he => hj (List.mem_cons_of_mem b0 he)
      rw [ihj j hjl, ntBoxStep_getD_ne ants dtr t b0 j hj0]
    · intro b hb
      rcases List.mem_cons.1 hb with he | hbl
      · subst he
        rw [ihj b hb0, ntBoxStep_getD_self]
      · have hne : b ≠ b0 := fun he => hb0 (he ▸ hbl)
        rw [ihb b hbl, ntBoxStep_getD_ne ants dtr t b0 b hne]

theorem ntUnit_getD {s : SState} {unit : List Nat} (hnd : unit.Nodup) :
    (∀ b ∈ unit, (ntUnit s unit).values.getD b [] =
        if s.values.getD b [] ∈ ntPairs s.values unit then s.values.getD b []
        else (s.values.getD b []).filter
          (fun x => decide (x ∉ (ntPairs s.values unit).flatten))) ∧
    (∀ j, j ∉ unit → (ntUnit s unit).values.getD j [] = s.values.getD j []) := by
  have he : ntUnit s unit =
      unit.foldl (ntBoxStep (ntPairs s.values unit) (ntPairs s.values unit).flatten) s := rfl
  obtain ⟨hj, hb⟩ :=
    ntUnit_fold_getD (ntPairs s.values unit) (ntPairs s.values unit).flatten unit s hnd
  rw [he]
  exact ⟨hb, hj⟩

/-! ### Claim C2 -/

/-- Claim C2 (refuting theorem): the diagonal units are defined but not part of
the topology the solver uses: UNIT_LIST holds only the 27 row, column and box
units, and every cell, including corner A1 (box 0) and centre E5 (box 40) that
lie on the diagonals, belongs to exactly 3 units. -/
theorem C2_diagonal_units_missing :
    DIAG_UNIT ∉ UNIT_LIST ∧ ANTI_DIAG_UNIT ∉ UNIT_LIST ∧
    UNIT_LIST.length = 27 ∧ (UNITS 0).length = 3 ∧ (UNITS 40).length = 3 := by decide

set_option maxRecDepth 40000
set_option maxHeartbeats 16000000

/-! ### Claim C3 -/

/-- Claim C3 (counterexample): in g3 the pair value "12" has size two and occurs
on exactly two boxes of unit row A, and box A7 of that unit holds "13", which
differs from the pair; yet after one application of naked_twins box A7 still
holds "13" -- the pair's digit '1' has not been removed, because the code skips
every box whose value equals any twin value of the unit ("13" is the other
twin), and the claim as stated is false. -/
theorem C3_counterexample :
    (UNIT_LIST.getD 0 []) ∈ UNIT_LIST ∧
    (['1', '2'] : Candidates).length = 2 ∧
    (((UNIT_LIST.getD 0 []).map (fun b => g3.getD b [])).count ['1', '2']) = 2 ∧
    (6 : Nat) ∈ UNIT_LIST.getD 0 [] ∧
    g3.getD 6 [] ≠ ['1', '2'] ∧
    (naked_twins ⟨g3, []⟩).values.getD 6 [] = ['1', '3'] ∧
    '1' ∈ (naked_twins ⟨g3, []⟩).values.getD 6 [] := by decide

/-- Claim C3 (amended): naked_twins processes the units of UNIT_LIST in
sequence; within one unit pass, with the twin values computed from the grid as
that unit is reached, every box of the unit whose candidate set is not equal to
any of the unit's twin values has all digits of all the twin values removed,
while boxes equal to some twin value are left unchanged; boxes outside the unit
are untouched by that pass. -/
theorem C3_naked_twins_amended :
    (∀ s : SState, naked_twins s = UNIT_LIST.foldl ntUnit s) ∧
    (∀ (s : SState) (unit : List Nat), unit.Nodup →
      (∀ b ∈ unit, (ntUnit s unit).values.getD b [] =
          if s.values.getD b [] ∈ ntPairs s.values unit then s.values.getD b []
          else (s.values.getD b []).filter
            (fun x => decide (x ∉ (ntPairs s.values unit).flatten))) ∧
      (∀ j, j ∉ unit → (ntUnit s unit).values.getD j [] = s.values.getD j [])) :=
  ⟨fun _ => rfl, fun _ _ hnd => ntUnit_getD hnd⟩

/-- Witness for the amended C3 on a concrete unit: row A of g3, where box A7
("13", itself a twin value) is left unchanged and box A2 (fresh) loses the
digits 1, 2, 3 of the two twin values. -/
theorem C3_amended_witness :
    (ntUnit ⟨g3, []⟩ (UNIT_LIST.getD 0 [])).values.getD 6 [] = ['1', '3'] ∧
    (ntUnit ⟨g3, []⟩ (UNIT_LIST.getD 0 [])).values.getD 1 [] =
      ['4', '5', '6', '7', '8', '9'] := by
  have h6 := (C3_naked_twins_amended.2 ⟨g3, []⟩ (UNIT_LIST.getD 0 []) (by decide)).1 6 (by decide)
  have h1 := (C3_naked_twins_amended.2 ⟨g3, []⟩ (UNIT_LIST.getD 0 []) (by decide)).1 1 (by decide)
  rw [h6, h1]
  constructor
  · decide
  · decide

/-! ### Toolkit for evaluating concrete runs in shallow stages -/

/-- A fold whose every step fixes the state is the identity. -/
theorem foldl_id {α β : Type} (F : β → α → β) (s : β) (l : List α)
    (h : ∀ x ∈ l, F s x = s) : List.foldl F s l = s := by
  induction l with
  | nil => rfl
  | cons x xs ih =>
    rw [List.foldl_cons, h x (List.mem_cons_self x xs)]
    exact ih (fun y hy => h y (List.mem_cons_of_mem x hy))

theorem eliminate_eq (s : SState) :
    eliminate s =
      (BOXES.filter (fun box => decide ((s.values.getD box []).length = 1))).foldl elimStep s :=
  rfl

theorem only_choice_eq (s : SState) : only_choice s = UNIT_LIST.foldl ocStep s := rfl

theorem naked_twins_eq (s : SState) : naked_twins s = UNIT_LIST.foldl ntUnit s := rfl

theorem eliminate_id {s : SState} (l : List Nat)
    (hl : BOXES.filter (fun box => decide ((s.values.getD box []).length = 1)) = l)
    (h : ∀ b ∈ l, elimStep s b = s) : eliminate s = s := by
  rw [eliminate_eq, hl]
  exact foldl_id _ _ _ h

theorem only_choice_id {s : SState} (h : ∀ u ∈ UNIT_LIST, ocStep s u = s) :
    only_choice s = s := by
  rw [only_choice_eq]
  exact foldl_id _ _ _ h

theorem naked_twins_id {s : SState} (h : ∀ u ∈ UNIT_LIST, ntUnit s u = s) :
    naked_twins s = s := by
  rw [naked_twins_eq]
  exact foldl_id _ _ _ h

theorem pass1_id {s : SState} (he : eliminate s = s) (ho : only_choice s = s)
    (hn : naked_twins s = s) : pass1 s = s := by
  unfold pass1
  rw [he, ho, hn]

theorem reduce_of_pass_id {s : SState} (hp : pass1 s = s) (hne : hasEmpty s.values = false) :
    reduce_puzzle s = (some s.values, s.assignments) := by
  rw [reduce_unfold, hp, hne]
  simp

theorem reduce_none_of_pass_id {s : SState} (hp : pass1 s = s) (he : hasEmpty s.values = true) :
    reduce_puzzle s = (none, s.assignments) := by
  rw [reduce_unfold, hp, he]
  simp

theorem search_of_reduce_some {s : SState} {v : Grid} {log : List Grid}
    (h : reduce_puzzle s = (some v, log)) (h0 : ¬(v = [])) (h1 : allSingle v = true) :
    search s = (SResult.solved v, log) := by
  unfold search
  rw [searchGo_succ, searchStep_some h, if_neg h0, if_pos h1]

theorem search_of_reduce_none {s : SState} {log : List Grid}
    (h : reduce_puzzle s = (none, log)) : search s = (SResult.retFalse, log) := by
  unfold search
  rw [searchGo_succ, searchStep_none h]

theorem search_branching {s : SState} {v : Grid} {log : List Grid}
    (h : reduce_puzzle s = (some v, log)) (h0 : ¬(v = [])) (h1 : ¬(allSingle v = true)) :
    search s =
      searchLoop (searchGo (sumLen s.values)) (bestKey v) v (v.getD (bestKey v) []) log := by
  unfold search
  rw [searchGo_succ, searchStep_some h, if_neg h0, if_neg h1]

theorem searchGo_retFalse {f : Nat} {s : SState} {log : List Grid} (hf : 1 ≤ f)
    (h : reduce_puzzle s = (none, log)) : searchGo f s = (SResult.retFalse, log) := by
  cases f with
  | zero => omega
  | succ f => exact searchGo_succ_none h

theorem searchLoop_step_failure {f : Nat} {b : Nat} {v : Grid} {c : Char} {cs : List Char}
    {log L : List Grid}
    (h : searchGo f ⟨v.set b [c], log⟩ = (SResult.retFalse, L)) :
    searchLoop (searchGo f) b v (c :: cs) log = searchLoop (searchGo f) b v cs L := by
  rw [searchLoop_cons, h]

/-! ### Concrete runs -/

theorem reduce_pair : reduce_puzzle ⟨pairGrid, []⟩ = (some pairGrid, []) := by
  have hp : pass1 ⟨pairGrid, []⟩ = ⟨pairGrid, []⟩ :=
    pass1_id (eliminate_id [] (by decide) (by decide)) (only_choice_id (by decide))
      (naked_twins_id (by decide))
  exact reduce_of_pass_id hp (by decide)

theorem reduce_branch1 : reduce_puzzle ⟨pairGrid.set 0 ['1'], []⟩ = (none, snapLog1) := by
  have he1 : eliminate ⟨pairGrid.set 0 ['1'], []⟩ = ⟨pg1, snapLog1⟩ := by decide
  have ho1 : only_choice ⟨pg1, snapLog1⟩ = ⟨pg1, snapLog1⟩ := only_choice_id (by decide)
  have hn1 : naked_twins ⟨pg1, snapLog1⟩ = ⟨pg1, snapLog1⟩ := naked_twins_id (by decide)
  have hp1 : pass1 ⟨pairGrid.set 0 ['1'], []⟩ = ⟨pg1, snapLog1⟩ := by
    unfold pass1
    rw [he1, ho1, hn1]
  have he2 : eliminate ⟨pg1, snapLog1⟩ = ⟨pg2, snapLog1⟩ := by decide
  have ho2 : only_choice ⟨pg2, snapLog1⟩ = ⟨pg2, snapLog1⟩ := only_choice_id (by decide)
  have hn2 : naked_twins ⟨pg2, snapLog1⟩ = ⟨pg2, snapLog1⟩ := naked_twins_id (by decide)
  have hp2 : pass1 ⟨pg1, snapLog1⟩ = ⟨pg2, snapLog1⟩ := by
    unfold pass1
    rw [he2, ho2, hn2]
  have hne1 : ¬(hasEmpty (SState.mk pg1 snapLog1).values = true) := by decide
  have hne2 : ¬((SState.mk pg1 snapLog1).values =
      (SState.mk (pairGrid.set 0 ['1']) []).values) := by decide
  have hpos : hasEmpty (SState.mk pg2 snapLog1).values = true := by decide
  rw [reduce_unfold, hp1, if_neg hne1, if_neg hne2, reduce_unfold, hp2, if_pos hpos]

theorem reduce_branch2 :
    reduce_puzzle ⟨pairGrid.set 0 ['2'], snapLog1⟩ = (none, snapLog1 ++ snapLog2) := by
  have he1 : eliminate ⟨pairGrid.set 0 ['2'], snapLog1⟩ = ⟨pq1, snapLog1 ++ snapLog2⟩ := by
    decide
  have ho1 : only_choice ⟨pq1, snapLog1 ++ snapLog2⟩ = ⟨pq1, snapLog1 ++ snapLog2⟩ :=
    only_choice_id (by decide)
  have hn1 : naked_twins ⟨pq1, snapLog1 ++ snapLog2⟩ = ⟨pq1, snapLog1 ++ snapLog2⟩ :=
    naked_twins_id (by decide)
  have hp1 : pass1 ⟨pairGrid.set 0 ['2'], snapLog1⟩ = ⟨pq1, snapLog1 ++ snapLog2⟩ := by
    unfold pass1
    rw [he1, ho1, hn1]
  have he2 : eliminate ⟨pq1, snapLog1 ++ snapLog2⟩ = ⟨pq2, snapLog1 ++ snapLog2⟩ := by decide
  have ho2 : only_choice ⟨pq2, snapLog1 ++ snapLog2⟩ = ⟨pq2, snapLog1 ++ snapLog2⟩ :=
    only_choice_id (by decide)
  have hn2 : naked_twins ⟨pq2, snapLog1 ++ snapLog2⟩ = ⟨pq2, snapLog1 ++ snapLog2⟩ :=
    naked_twins_id (by decide)
  have hp2 : pass1 ⟨pq1, snapLog1 ++ snapLog2⟩ = ⟨pq2, snapLog1 ++ snapLog2⟩ := by
    unfold pass1
    rw [he2, ho2, hn2]
  have hne1 : ¬(hasEmpty (SState.mk pq1 (snapLog1 ++ snapLog2)).values = true) := by decide
  have hne2 : ¬((SState.mk pq1 (snapLog1 ++ snapLog2)).values =
      (SState.mk (pairGrid.set 0 ['2']) snapLog1).values) := by decide
  have hpos : hasEmpty (SState.mk pq2 (snapLog1 ++ snapLog2)).values = true := by decide
  rw [reduce_unfold, hp1, if_neg hne1, if_neg hne2, reduce_unfold, hp2, if_pos hpos]

theorem search_pair : search ⟨pairGrid, []⟩ = (SResult.retNone, snapLog1 ++ snapLog2) := by
  have h0 := search_branching reduce_pair (by decide) (by decide)
  have hb : bestKey pairGrid = 0 := by decide
  have hc : pairGrid.getD (0 : Nat) [] = ['1', '2'] := by decide
  rw [hb, hc] at h0
  have h1 : searchGo (sumLen (SState.mk pairGrid []).values) ⟨pairGrid.set 0 ['1'], []⟩ =
      (SResult.retFalse, snapLog1) :=
    searchGo_retFalse (by decide) reduce_branch1
  rw [searchLoop_step_failure h1] at h0
  have h2 : searchGo (sumLen (SState.mk pairGrid []).values)
      ⟨pairGrid.set 0 ['2'], snapLog1⟩ = (SResult.retFalse, snapLog1 ++ snapLog2) :=
    searchGo_retFalse (by decide) reduce_branch2
  rw [searchLoop_step_failure h2] at h0
  rw [searchLoop_nil] at h0
  exact h0

theorem reduce_empty : reduce_puzzle ⟨emptyCellGrid, []⟩ = (none, []) := by
  have hp : pass1 ⟨emptyCellGrid, []⟩ = ⟨emptyCellGrid, []⟩ :=
    pass1_id (eliminate_id [] (by decide) (by decide)) (only_choice_id (by decide))
      (naked_twins_id (by decide))
  exact reduce_none_of_pass_id hp (by decide)

theorem search_empty : search ⟨emptyCellGrid, []⟩ = (SResult.retFalse, []) :=
  search_of_reduce_none reduce_empty

theorem reduce_fullSol :
    reduce_puzzle ⟨grid_values fullSolStr, []⟩ = (some (grid_values fullSolStr), []) := by
  have hp : pass1 ⟨grid_values fullSolStr, []⟩ = ⟨grid_values fullSolStr, []⟩ :=
    pass1_id (eliminate_id (List.range 81) (by decide) (by decide))
      (only_choice_id (by decide)) (naked_twins_id (by decide))
  exact reduce_of_pass_id hp (by decide)

theorem solve_fullSol : solve fullSolStr = (SResult.solved (grid_values fullSolStr), []) := by
  unfold solve
  exact search_of_reduce_some reduce_fullSol (by decide) (by decide)

/-! ### Claim C6 -/

/-- Claim C6 (counterexample): both failure modes are plain return values, but
they are not the same value: a contradiction found by reduce_puzzle makes
search return Python False, while exhausting every candidate branch makes
search fall off its loop and return Python None.  On emptyCellGrid the
reduction fails and search returns False; on pairGrid the reduction succeeds,
both branches of box A1 then fail, and search returns None. -/
theorem C6_counterexample :
    (reduce_puzzle ⟨emptyCellGrid, []⟩).1 = none ∧
    (search ⟨emptyCellGrid, []⟩).1 = SResult.retFalse ∧
    (reduce_puzzle ⟨pairGrid, []⟩).1 = some pairGrid ∧
    (search ⟨pairGrid, []⟩).1 = SResult.retNone ∧
    SResult.retFalse ≠ SResult.retNone := by
  refine ⟨?_, ?_, ?_, ?_, by decide⟩
  · rw [reduce_empty]
  · rw [search_empty]
  · rw [reduce_pair]
  · rw [search_pair]

/-- Claim C6 (amended): failure is always propagated through the normal return
channel, never raised as an exception: whenever reduce_puzzle reports a
contradiction, search returns the value False, while a search node that
exhausts all candidate branches returns the distinct value None -- the two
failure returns are not the same value. -/
theorem C6_amended :
    (∀ (s : SState) (log : List Grid), reduce_puzzle s = (none, log) →
      search s = (SResult.retFalse, log)) ∧
    (search ⟨pairGrid, []⟩).1 = SResult.retNone ∧
    SResult.retFalse ≠ SResult.retNone := by
  refine ⟨fun s log h => search_of_reduce_none h, ?_, by decide⟩
  rw [search_pair]

/-- Witness for the amended C6 at a concrete contradictory grid. -/
theorem C6_amended_witness : search ⟨emptyCellGrid, []⟩ = (SResult.retFalse, []) :=
  C6_amended.1 ⟨emptyCellGrid, []⟩ [] reduce_empty

/-! ### Claim C9 -/

/-- Claim C9 (counterexample): on pairGrid, search reaches the round fixpoint
pairGrid itself, whose branching box is A1 with the two candidates "12"; search
then writes the changed single candidate "1" directly into box A1 of its copy,
reducing that box to a single candidate.  The claim demands that a snapshot of
the grid at that moment be appended to the log, but the snapshot of that
moment, pairGrid with box A1 set to "1", never appears in the final
assignments log of the run. -/
theorem C9_counterexample :
    reduce_puzzle ⟨pairGrid, []⟩ = (some pairGrid, []) ∧
    bestKey pairGrid = 0 ∧
    pairGrid.getD 0 [] = ['1', '2'] ∧
    (['1'] : Candidates) ≠ pairGrid.getD 0 [] ∧
    (pairGrid.set 0 ['1']) ∉ (search ⟨pairGrid, []⟩).2 := by
  refine ⟨reduce_pair, by decide, by decide, by decide, ?_⟩
  rw [search_pair]
  decide

/-- Claim C9 (amended): an update made through assign_value appends a full
snapshot of the updated dictionary exactly when the new candidate set differs
from the old one and has exactly one element, and appends nothing otherwise;
however, the branching step of search writes the chosen single candidate
directly into the copied dictionary, handing the recursive call an unchanged
log, so no snapshot is appended at the branching moment. -/
theorem C9_assign_log_amended :
    (∀ (s : SState) (box : Nat) (value : Candidates),
      (assign_value s box value).assignments =
        if s.values.getD box [] ≠ value ∧ value.length = 1
        then s.assignments ++ [s.values.set box value]
        else s.assignments) ∧
    (∀ (rec : SState → SResult × List Grid) (b : Nat) (v : Grid) (c : Char) (cs : List Char)
      (log : List Grid),
      searchLoop rec b v (c :: cs) log =
        match rec ⟨v.set b [c], log⟩ with
        | (SResult.solved r, log2) =>
          if r ≠ [] ∧ allSingle r = true then (SResult.solved r, log2)
          else searchLoop rec b v cs log2
        | (SResult.retFalse, log2) => searchLoop rec b v cs log2
        | (SResult.retNone, log2) => searchLoop rec b v cs log2) := by
  constructor
  · intro s box value
    rw [assign_log]
    by_cases h : s.values.getD box [] = value
    · rw [if_pos h, if_neg (fun hc => hc.1 h)]
    · rw [if_neg h]
      by_cases h1 : value.length = 1
      · rw [if_pos h1, if_pos ⟨h, h1⟩]
      · rw [if_neg h1, if_neg (fun hc => h1 hc.2)]
  · intro rec b v c cs log
    exact searchLoop_cons rec b v c cs log

/-! ### Claim C10 -/

theorem zip_take_len {α β : Type} :
    ∀ (bs : List α) (g : List β), bs.zip g = bs.zip (g.take bs.length) := by
  intro bs
  induction bs with
  | nil => intro g; rfl
  | cons b bs ih =>
    intro g
    cases g with
    | nil => rfl
    | cons c g =>
      simp only [List.zip_cons_cons, List.length_cons, List.take_succ_cons]
      rw [← ih g]

/-- Claim C10: grid_values never fails on inputs of the wrong length: on a
string shorter than 81 characters it returns a mapping covering only the first
length-many boxes in row-major order (the remaining boxes are absent), and on a
longer string the extra characters are silently ignored. -/
theorem C10_grid_values (g : List Char) :
    (grid_values g).length = min 81 g.length ∧
    (∀ i, i < min 81 g.length →
      (grid_values g).getD i [] = if g.getD i '.' = '.' then digits else [g.getD i '.']) ∧
    grid_values g = grid_values (g.take 81) := by
  refine ⟨grid_values_length g, fun i hi => grid_values_getD hi, ?_⟩
  unfold grid_values
  have h81 : BOXES.length = 81 := by rw [BOXES_eq_range, List.length_range]
  have hz : BOXES.zip g = BOXES.zip (g.take 81) := by
    rw [zip_take_len BOXES g, h81]
  rw [hz]

/-- Witness for C10 on the three-character input "12.": the mapping covers
exactly the first three boxes, and box A2 holds the given digit 2. -/
theorem C10_witness :
    (grid_values (String.toList "12.")).getD 1 [] = ['2'] ∧
    (grid_values (String.toList "12.")).length = min 81 (String.toList "12.").length := by
  constructor
  · have h := (C10_grid_values (String.toList "12.")).2.1 1 (by decide)
    rw [h]
    decide
  · exact (C10_grid_values (String.toList "12.")).1

/-! ### Witnesses for C1, C4, C5, C8 -/

/-- Witness for C1: the completely given valid grid fullSolStr is solved, and
the first unit of the topology (row A) indeed carries a permutation of the
digits 1..9. -/
theorem C1_witness :
    List.Perm (((UNIT_LIST.getD 0 []).map
      (fun b => (grid_values fullSolStr).getD b [])).flatten) digits :=
  (C1_solve_valid fullSolStr (by decide) (by decide) (grid_values fullSolStr) []
    solve_fullSol).2 (UNIT_LIST.getD 0 []) (by decide)

/-- Witness for C4 on a concrete reduction that succeeds: the returned grid has
no empty box and is a fixpoint of one full round. -/
theorem C4_witness :
    hasEmpty (grid_values fullSolStr) = false ∧
    passValues (grid_values fullSolStr) = grid_values fullSolStr :=
  (C4_reduce_puzzle ⟨grid_values fullSolStr, []⟩).2 (grid_values fullSolStr) [] reduce_fullSol

/-- Witness for C5: box A1 of the solved fullSolStr grid keeps its given
digit 4. -/
theorem C5_witness : (grid_values fullSolStr).getD 0 [] = [fullSolStr.getD 0 '.'] :=
  C5_givens fullSolStr (by decide) (grid_values fullSolStr) [] solve_fullSol 0 (by decide)
    (by decide)

/-- Witness for C8 at a concrete grid and fuel. -/
theorem C8_witness : reduceGo 163 ⟨twelveGrid, []⟩ = reduce_puzzle ⟨twelveGrid, []⟩ :=
  C8_reduce_terminates 163 ⟨twelveGrid, []⟩ (by decide)
